import Mathlib

/-!
Embedding of the heat-flow relaxation program (cq-formation-ecoulement-chaleur):
the grid model `ModeleCTC`, its accessors, the checkerboard relaxation step
`un_pas_de_temps`, the main convergence loop, the MPI row partition and the
single-process instance of the MPI step with its halo exchange.  Floating-point
`float` values are idealized as rational numbers.
-/

set_option maxRecDepth 10000

set_option allowUnsafeReducibility true

attribute [semireducible] Rat.ofScientific Rat.mul Rat.inv Rat.add Rat.sub

namespace Chaleur

/-- Noise constant: 6.4 units of the 8-bit resolution (src/main.cpp line 13). -/
def BRUIT : ℚ := 6.4 / 256

/-- Convergence threshold: 0.5 unit per pixel (src/main.cpp line 14). -/
def SEUIL_CONVERGENCE : ℚ := 0.5 / 256

/-- Iteration cap (src/main.cpp line 15). -/
def NB_MAX_ITER : Nat := 5000

/-- The (Chaleur, Température, Conduction) triple, struct CTC (src/main.cpp lines 69-73). -/
structure CTC where
  chaleur : ℚ
  temperature : ℚ
  conduction : ℚ
deriving DecidableEq

instance : Inhabited CTC := ⟨⟨0, 0, 0⟩⟩

/-- The 2-D grid: class ModeleCTC, a std::vector of CTC plus a width and a height
(src/main.cpp lines 79-156).  The flat buffer is addressed by rangee * larg + colonne. -/
structure ModeleCTC where
  larg : Nat
  haut : Nat
  cells : List CTC
deriving DecidableEq

/-- Accessor ModeleCTC::ctc (src/main.cpp lines 97-102): vector::at on the flat index;
none models the std::out_of_range exception. -/
def ModeleCTC.ctc (g : ModeleCTC) (rangee colonne : Nat) : Option CTC :=
  g.cells[rangee * g.larg + colonne]?

/-- Accessor ModeleCTC::chaleur (src/main.cpp lines 107-109). -/
def ModeleCTC.chaleur (g : ModeleCTC) (rangee colonne : Nat) : Option ℚ :=
  (g.cells[rangee * g.larg + colonne]?).map CTC.chaleur

/-- Accessor ModeleCTC::temperature (src/main.cpp lines 110-112). -/
def ModeleCTC.temperature (g : ModeleCTC) (rangee colonne : Nat) : Option ℚ :=
  (g.cells[rangee * g.larg + colonne]?).map CTC.temperature

/-- Accessor ModeleCTC::conduction (src/main.cpp lines 113-115). -/
def ModeleCTC.conduction (g : ModeleCTC) (rangee colonne : Nat) : Option ℚ :=
  (g.cells[rangee * g.larg + colonne]?).map CTC.conduction

/-- Total read of a cell, used to state and run the sweep.  During an actual sweep
every access is in range, where this agrees with the checked accessors. -/
def lire (g : ModeleCTC) (rangee colonne : Nat) : CTC :=
  g.cells.getD (rangee * g.larg + colonne) default

/-- Body of the inner loop of un_pas_de_temps (src/main.cpp lines 134-145): update
the temperature of cell (i, j) in place, returning the grid and |delta_temp|. -/
def maj_cellule (g : ModeleCTC) (i j : Nat) : ModeleCTC × ℚ :=
  let conduct := (lire g i j).conduction
  let ancienne_temp := (lire g i j).temperature
  let nouvelle_temp := max (lire g i j).chaleur
    (((lire g (i - 1) j).temperature + (lire g i (j - 1)).temperature +
      (lire g i (j + 1)).temperature + (lire g (i + 1) j).temperature) / 4 + BRUIT)
  let delta_temp := conduct * (nouvelle_temp - ancienne_temp)
  let c := lire g i j
  (⟨g.larg, g.haut,
    g.cells.set (i * g.larg + j) ⟨c.chaleur, c.temperature + delta_temp, c.conduction⟩⟩,
   |delta_temp|)

/-- Iterations of the inner column loop, with enough fuel to reach j ≥ stop. -/
def colonnes_aux (stop : Nat) : Nat → Nat → List Nat
  | _, 0 => []
  | j, fuel + 1 => if j < stop then j :: colonnes_aux stop (j + 2) fuel else []

/-- Column indices of the inner loop: j starts at the given value and steps by 2
while j < stop (src/main.cpp line 133). -/
def colonnes (stop j : Nat) : List Nat :=
  colonnes_aux stop j (stop - j)

/-- Cells (i, j) visited by the sub-pass `impair` over the given rows: the starting
column parity is 1 + (((i + 1) XOR impair) AND 1) (src/main.cpp lines 130-133). -/
def visite (larg : Nat) (rangees : List Nat) (impair : Nat) : List (Nat × Nat) :=
  rangees.flatMap fun i =>
    (colonnes (larg - 1) (1 + (((i + 1) ^^^ impair) &&& 1))).map fun j => (i, j)

/-- One fold step of the sweep: update the cell and accumulate somme_delta. -/
def pas_cellule_acc (acc : ModeleCTC × ℚ) (c : Nat × Nat) : ModeleCTC × ℚ :=
  let r := maj_cellule acc.1 c.1 c.2
  (r.1, acc.2 + r.2)

/-- In-place sweep of a list of cells, accumulating somme_delta. -/
def pas_cellules (g : ModeleCTC) (cs : List (Nat × Nat)) : ModeleCTC × ℚ :=
  cs.foldl pas_cellule_acc (g, 0)

/-- The full visit order of one step: checkerboard, sub-pass 0 then sub-pass 1, rows
1 to haut-2 (src/main.cpp lines 128-147). -/
def liste_balayage (larg haut : Nat) : List (Nat × Nat) :=
  visite larg (List.range' 1 (haut - 2)) 0 ++ visite larg (List.range' 1 (haut - 2)) 1

/-- ModeleCTC::un_pas_de_temps (src/main.cpp lines 124-151): one checkerboard sweep
over the interior; returns the updated grid and somme_delta / (larg * haut). -/
def un_pas_de_temps (g : ModeleCTC) : ModeleCTC × ℚ :=
  let r := pas_cellules g (liste_balayage g.larg g.haut)
  (r.1, r.2 / ((g.larg * g.haut : Nat) : ℚ))

/-- n successive calls of un_pas_de_temps (grid component only). -/
def pasN : Nat → ModeleCTC → ModeleCTC
  | 0, g => g
  | n + 1, g => pasN n (un_pas_de_temps g).1

/-- std::vector::resize: keep the first elements, complete with value-initialized
(all-zero) CTC triples. -/
def resize (l : List CTC) (n : Nat) : List CTC :=
  l.take n ++ List.replicate (n - l.length) ⟨0, 0, 0⟩

/-- ModeleCTC::redimensionner (src/main.cpp lines 87-92): store the dimensions and
resize the buffer, with no dimension check. -/
def redimensionner (g : ModeleCTC) (largeur hauteur : Nat) : ModeleCTC :=
  ⟨largeur, hauteur, resize g.cells (largeur * hauteur)⟩

/-- Main loop of main() (src/main.cpp lines 236-239).  The fuel argument only bounds
the recursion; started at NB_MAX_ITER - nb_iter it never runs out before the loop
guard nb_iter < NB_MAX_ITER fails, so the loop below is exactly the C++ while loop. -/
def boucle : ModeleCTC → ℚ → Nat → Nat → ModeleCTC × ℚ × Nat
  | g, delta_temp, nb_iter, 0 => (g, delta_temp, nb_iter)
  | g, delta_temp, nb_iter, fuel + 1 =>
    if SEUIL_CONVERGENCE < delta_temp ∧ nb_iter < NB_MAX_ITER then
      boucle (un_pas_de_temps g).1 (un_pas_de_temps g).2 (nb_iter + 1) fuel
    else (g, delta_temp, nb_iter)

/-- The main loop started as in main(): delta_temp = SEUIL_CONVERGENCE + 1,
nb_iter = 0 (src/main.cpp lines 233-234). -/
def principale (g : ModeleCTC) : ModeleCTC × ℚ × Nat :=
  boucle g (SEUIL_CONVERGENCE + 1) 0 NB_MAX_ITER

/-- Start of the row range of a rank (src/solutions/mpi/main.cpp line 127). -/
def debut (haut rank size : Nat) : Nat := 1 + rank * (haut - 2) / size

/-- One-past-the-end of the row range of a rank (src/solutions/mpi/main.cpp line 128). -/
def fin (haut rank size : Nat) : Nat := 1 + (rank + 1) * (haut - 2) / size

/-- One MPI row transfer of 3*larg floats (a whole row of CTC triples): the row src
of the snapshot is written over the row dst (src/solutions/mpi/main.cpp lines 154-166). -/
def copie_rangee (larg src dst : Nat) (cells : List CTC) : List CTC :=
  (List.range larg).foldl
    (fun l c => l.set (dst * larg + c) (cells.getD (src * larg + c) default)) cells

/-- ModeleCTC::un_pas_de_temps of the MPI variant (src/solutions/mpi/main.cpp lines
125-180), instantiated for a single-process run (rank 0 of size 1), where every
message is self-delivered and the sum Allreduce over one rank is the identity:
after the sweep over rows [debut, fin), row debut is sent up and lands in row fin,
and row fin-1 is sent down and lands in row debut-1 (the ring wraps onto itself). -/
def un_pas_de_temps_mpi1 (g : ModeleCTC) : ModeleCTC × ℚ :=
  let d := debut g.haut 0 1
  let f := fin g.haut 0 1
  let r := pas_cellules g
    (visite g.larg (List.range' d (f - d)) 0 ++ visite g.larg (List.range' d (f - d)) 1)
  let cells1 := copie_rangee g.larg d f r.1.cells
  let cells2 := copie_rangee g.larg (f - 1) (d - 1) cells1
  (⟨g.larg, g.haut, cells2⟩, r.2 / ((g.larg * g.haut : Nat) : ℚ))

/-- The value delta_temp computed in the loop body for cell (i, j) of grid g
(src/main.cpp lines 136-142): conduction times (clamped candidate minus current). -/
def delta_temp (g : ModeleCTC) (i j : Nat) : ℚ :=
  (lire g i j).conduction *
    (max (lire g i j).chaleur
      (((lire g (i - 1) j).temperature + (lire g i (j - 1)).temperature +
        (lire g i (j + 1)).temperature + (lire g (i + 1) j).temperature) / 4 + BRUIT) -
     (lire g i j).temperature)

/-- Observed absolute temperature change at each visited cell, in sweep order,
computed from the successive intermediate grids. -/
def changements (g : ModeleCTC) : List (Nat × Nat) → List ℚ
  | [] => []
  | c :: cs =>
    |(lire (maj_cellule g c.1 c.2).1 c.1 c.2).temperature - (lire g c.1 c.2).temperature| ::
      changements (maj_cellule g c.1 c.2).1 cs

/-! Concrete grids used by counterexamples and witnesses. -/

/-- A 3x3 grid whose center cell has chaleur 1, temperature 0 and conduction 0; all
conductions lie in [0, 1]. -/
def grilleC1 : ModeleCTC := ⟨3, 3, (List.replicate 9 ⟨0, 0, 0⟩).set 4 ⟨1, 0, 0⟩⟩

/-- A 3x3 grid whose cells all satisfy temperature ≥ chaleur, conductions in [0, 1]. -/
def grilleC1t : ModeleCTC := ⟨3, 3, List.replicate 9 ⟨1, 2, 1 / 2⟩⟩

/-- The 5x5 scenario grid: all source 0, all conduction 1, all temperature 0 except
the center cell (2, 2) at temperature 100. -/
def grilleC2 : ModeleCTC := ⟨5, 5, (List.replicate 25 ⟨0, 0, 1⟩).set 12 ⟨0, 100, 1⟩⟩

/-- A 3x3 grid whose border cell (0, 0) holds temperature 5; all conductions 0. -/
def grilleC3 : ModeleCTC := ⟨3, 3, (List.replicate 9 ⟨0, 0, 0⟩).set 0 ⟨0, 5, 0⟩⟩

/-- A 3x3 grid with all chaleur 0, temperature 0, conduction 1: one swept cell. -/
def grilleC4 : ModeleCTC := ⟨3, 3, List.replicate 9 ⟨0, 0, 1⟩⟩

/-- A 3x3 grid with pairwise distinct temperatures equal to the flat index. -/
def grilleC5 : ModeleCTC := ⟨3, 3, (List.range 9).map fun k => ⟨0, (k : ℚ), 0⟩⟩

/-- A 3x3 grid tuned so that the first step returns exactly SEUIL_CONVERGENCE:
the single swept cell has temperature BRUIT + 9 * SEUIL_CONVERGENCE. -/
def grilleC6 : ModeleCTC := ⟨3, 3, (List.replicate 9 ⟨0, 0, 0⟩).set 4 ⟨0, 109 / 2560, 1⟩⟩

theorem colonnes_aux_congr (stop : Nat) :
    ∀ f1 : Nat, ∀ j f2 : Nat, stop - j ≤ f1 → stop - j ≤ f2 →
      colonnes_aux stop j f1 = colonnes_aux stop j f2 := by
  intro f1
  induction f1 with
  | zero =>
    intro j f2 h1 _
    cases f2 with
    | zero => rfl
    | succ f2 =>
      simp only [colonnes_aux]
      rw [if_neg (by omega)]
  | succ f1 ih =>
    intro j f2 h1 h2
    cases f2 with
    | zero =>
      simp only [colonnes_aux]
      rw [if_neg (by omega)]
    | succ f2 =>
      simp only [colonnes_aux]
      by_cases hj : j < stop
      · rw [if_pos hj, if_pos hj, ih (j + 2) f2 (by omega) (by omega)]
      · rw [if_neg hj, if_neg hj]

/-- The inner column loop unfolds exactly as the C++ loop does. -/
theorem colonnes_eq (stop j : Nat) :
    colonnes stop j = if j < stop then j :: colonnes stop (j + 2) else [] := by
  by_cases hj : j < stop
  · rw [if_pos hj]
    show colonnes_aux stop j (stop - j) = _
    have h1 : stop - j = (stop - j - 1) + 1 := by omega
    rw [h1]
    simp only [colonnes_aux]
    rw [if_pos hj]
    exact congrArg _ (colonnes_aux_congr stop _ _ _ (by omega) (by omega))
  · rw [if_neg hj]
    show colonnes_aux stop j (stop - j) = []
    have h1 : stop - j = 0 := by omega
    rw [h1]
    rfl

/-- Fuel does not matter as long as it is at least NB_MAX_ITER - nb_iter. -/
theorem boucle_congr :
    ∀ f1 : Nat, ∀ g d n f2, NB_MAX_ITER - n ≤ f1 → NB_MAX_ITER - n ≤ f2 →
      boucle g d n f1 = boucle g d n f2 := by
  intro f1
  induction f1 with
  | zero =>
    intro g d n f2 h1 _
    cases f2 with
    | zero => rfl
    | succ f2 =>
      simp only [boucle]
      rw [if_neg (by omega)]
  | succ f1 ih =>
    intro g d n f2 h1 h2
    cases f2 with
    | zero =>
      simp only [boucle]
      rw [if_neg (by omega)]
    | succ f2 =>
      simp only [boucle]
      by_cases hc : SEUIL_CONVERGENCE < d ∧ n < NB_MAX_ITER
      · rw [if_pos hc, if_pos hc, ih _ _ _ f2 (by omega) (by omega)]
      · rw [if_neg hc, if_neg hc]

/-- The main loop unfolds exactly as the C++ while loop does. -/
theorem boucle_eq (g : ModeleCTC) (d : ℚ) (n : Nat) :
    boucle g d n (NB_MAX_ITER - n) =
      if SEUIL_CONVERGENCE < d ∧ n < NB_MAX_ITER then
        boucle (un_pas_de_temps g).1 (un_pas_de_temps g).2 (n + 1) (NB_MAX_ITER - (n + 1))
      else (g, d, n) := by
  by_cases hc : SEUIL_CONVERGENCE < d ∧ n < NB_MAX_ITER
  · rw [if_pos hc]
    have h1 : NB_MAX_ITER - n = (NB_MAX_ITER - n - 1) + 1 := by omega
    rw [h1]
    simp only [boucle]
    rw [if_pos hc]
    exact boucle_congr _ _ _ _ _ (by omega) (by omega)
  · rw [if_neg hc]
    cases h1 : NB_MAX_ITER - n with
    | zero => rfl
    | succ f =>
      simp only [boucle]
      rw [if_neg hc]

/-! Helper lemmas about the visit order. -/

theorem mem_colonnes_aux (stop : Nat) :
    ∀ fuel s j : Nat, stop - s ≤ fuel →
      (j ∈ colonnes_aux stop s fuel ↔ s ≤ j ∧ j < stop ∧ j % 2 = s % 2) := by
  intro fuel
  induction fuel with
  | zero =>
    intro s j h
    simp only [colonnes_aux, List.not_mem_nil, false_iff]
    omega
  | succ fuel ih =>
    intro s j h
    simp only [colonnes_aux]
    by_cases hs : s < stop
    · rw [if_pos hs]
      simp only [List.mem_cons]
      rw [ih (s + 2) j (by omega)]
      omega
    · rw [if_neg hs]
      simp only [List.not_mem_nil, false_iff]
      omega

theorem mem_colonnes {stop s j : Nat} :
    j ∈ colonnes stop s ↔ s ≤ j ∧ j < stop ∧ j % 2 = s % 2 :=
  mem_colonnes_aux stop (stop - s) s j le_rfl

theorem nodup_colonnes_aux (stop : Nat) :
    ∀ fuel s : Nat, stop - s ≤ fuel → (colonnes_aux stop s fuel).Nodup := by
  intro fuel
  induction fuel with
  | zero => intro s _; exact List.nodup_nil
  | succ fuel ih =>
    intro s h
    simp only [colonnes_aux]
    by_cases hs : s < stop
    · rw [if_pos hs]
      refine List.nodup_cons.2 ⟨fun hmem => ?_, ih (s + 2) (by omega)⟩
      have := (mem_colonnes_aux stop fuel (s + 2) s (by omega)).1 hmem
      omega
    · rw [if_neg hs]
      exact List.nodup_nil

theorem nodup_colonnes (stop s : Nat) : (colonnes stop s).Nodup :=
  nodup_colonnes_aux stop (stop - s) s le_rfl

/-- The checkerboard starting-column expression computes the parity of i + 1 + impair. -/
theorem depart_eq (i p : Nat) (hp : p ≤ 1) :
    ((i + 1) ^^^ p) &&& 1 = (i + 1 + p) % 2 := by
  rw [Nat.and_xor_distrib_right, Nat.and_one_is_mod, Nat.and_one_is_mod]
  rcases Nat.mod_two_eq_zero_or_one (i + 1) with h | h <;> interval_cases p <;> rw [h] <;>
    simp only [Nat.zero_mod, Nat.one_mod_two_pow, Nat.one_mod, Nat.xor_zero, Nat.zero_xor,
      Nat.xor_self] <;> omega

theorem mem_visite {larg haut p i j : Nat} (hp : p ≤ 1) :
    (i, j) ∈ visite larg (List.range' 1 (haut - 2)) p ↔
      1 ≤ i ∧ i < haut - 1 ∧ 1 ≤ j ∧ j < larg - 1 ∧ (i + j) % 2 = p := by
  unfold visite
  rw [List.mem_flatMap]
  constructor
  · rintro ⟨i', hi', hj'⟩
    obtain ⟨j', hj'mem, hj'eq⟩ := List.mem_map.1 hj'
    have h1 : i' = i := congrArg Prod.fst hj'eq
    have h2 : j' = j := congrArg Prod.snd hj'eq
    rw [h1] at hi' hj'mem
    rw [h2] at hj'mem
    rw [List.mem_range'_1] at hi'
    rw [depart_eq i p hp, mem_colonnes] at hj'mem
    omega
  · rintro ⟨h1, h2, h3, h4, h5⟩
    refine ⟨i, List.mem_range'_1.2 (by omega), List.mem_map.2 ⟨j, ?_, rfl⟩⟩
    rw [depart_eq i p hp, mem_colonnes]
    omega

theorem mem_liste_balayage {larg haut i j : Nat} :
    (i, j) ∈ liste_balayage larg haut ↔
      1 ≤ i ∧ i < haut - 1 ∧ 1 ≤ j ∧ j < larg - 1 := by
  unfold liste_balayage
  rw [List.mem_append, mem_visite (by omega : (0 : Nat) ≤ 1),
    mem_visite (by omega : (1 : Nat) ≤ 1)]
  omega

theorem nodup_visite (larg haut p : Nat) :
    (visite larg (List.range' 1 (haut - 2)) p).Nodup := by
  unfold visite
  rw [List.nodup_flatMap]
  refine ⟨fun i _ => ?_, ?_⟩
  · exact (nodup_colonnes _ _).map fun a b hab => congrArg Prod.snd hab
  · refine List.Pairwise.imp ?_ (List.nodup_range' 1 (haut - 2))
    intro a b hab
    intro x hxa hxb
    obtain ⟨ja, _, rfl⟩ := List.mem_map.1 hxa
    obtain ⟨jb, _, heq⟩ := List.mem_map.1 hxb
    exact hab (congrArg Prod.fst heq).symm

theorem nodup_liste_balayage (larg haut : Nat) : (liste_balayage larg haut).Nodup := by
  refine (nodup_visite larg haut 0).append (nodup_visite larg haut 1) ?_
  rintro ⟨i, j⟩ h0 h1
  have p0 := (mem_visite (by omega : (0 : Nat) ≤ 1)).1 h0
  have p1 := (mem_visite (by omega : (1 : Nat) ≤ 1)).1 h1
  omega

/-! Helper lemmas about the sweep as a fold. -/

theorem maj_cellule_larg (g : ModeleCTC) (i j : Nat) : (maj_cellule g i j).1.larg = g.larg := rfl

theorem maj_cellule_haut (g : ModeleCTC) (i j : Nat) : (maj_cellule g i j).1.haut = g.haut := rfl

theorem maj_cellule_length (g : ModeleCTC) (i j : Nat) :
    (maj_cellule g i j).1.cells.length = g.cells.length := by
  simp [maj_cellule]

/-- The update writes only the flat index i * larg + j. -/
theorem maj_cellule_frame (g : ModeleCTC) (i j k : Nat) (hk : k ≠ i * g.larg + j) :
    (maj_cellule g i j).1.cells.getD k default = g.cells.getD k default := by
  simp only [maj_cellule]
  simp [List.getD, List.getElem?_set_ne (Ne.symm hk)]

theorem pas_cellule_acc_eq (g : ModeleCTC) (a : ℚ) (c : Nat × Nat) :
    pas_cellule_acc (g, a) c =
      ((maj_cellule g c.1 c.2).1, a + (maj_cellule g c.1 c.2).2) := rfl

theorem pas_cellules_acc :
    ∀ (cs : List (Nat × Nat)) (g : ModeleCTC) (a : ℚ),
      cs.foldl pas_cellule_acc (g, a) = ((pas_cellules g cs).1, a + (pas_cellules g cs).2) := by
  intro cs
  induction cs with
  | nil => intro g a; simp [pas_cellules]
  | cons c cs ih =>
    intro g a
    simp only [pas_cellules, List.foldl_cons, pas_cellule_acc_eq]
    rw [ih, ih (maj_cellule g c.1 c.2).1 (0 + (maj_cellule g c.1 c.2).2)]
    simp only [Prod.mk.injEq, true_and]
    ring

theorem pas_cellules_cons (g : ModeleCTC) (c : Nat × Nat) (cs : List (Nat × Nat)) :
    pas_cellules g (c :: cs) =
      ((pas_cellules (maj_cellule g c.1 c.2).1 cs).1,
        (maj_cellule g c.1 c.2).2 + (pas_cellules (maj_cellule g c.1 c.2).1 cs).2) := by
  conv_lhs => simp only [pas_cellules, List.foldl_cons, pas_cellule_acc_eq]
  rw [pas_cellules_acc]
  simp only [Prod.mk.injEq, true_and]
  ring

theorem pas_cellules_append (g : ModeleCTC) (l0 l1 : List (Nat × Nat)) :
    pas_cellules g (l0 ++ l1) =
      ((pas_cellules (pas_cellules g l0).1 l1).1,
        (pas_cellules g l0).2 + (pas_cellules (pas_cellules g l0).1 l1).2) := by
  conv_lhs => simp only [pas_cellules, List.foldl_append]
  rw [show List.foldl pas_cellule_acc (g, 0) l0 =
        ((pas_cellules g l0).1, 0 + (pas_cellules g l0).2) from pas_cellules_acc l0 g 0,
      pas_cellules_acc]
  simp only [Prod.mk.injEq, true_and]
  ring

theorem pas_cellules_larg (cs : List (Nat × Nat)) :
    ∀ g : ModeleCTC, (pas_cellules g cs).1.larg = g.larg := by
  induction cs with
  | nil => intro g; rfl
  | cons c cs ih => intro g; rw [pas_cellules_cons]; exact ih _

theorem pas_cellules_haut (cs : List (Nat × Nat)) :
    ∀ g : ModeleCTC, (pas_cellules g cs).1.haut = g.haut := by
  induction cs with
  | nil => intro g; rfl
  | cons c cs ih => intro g; rw [pas_cellules_cons]; exact ih _

theorem pas_cellules_nonneg (cs : List (Nat × Nat)) :
    ∀ g : ModeleCTC, 0 ≤ (pas_cellules g cs).2 := by
  induction cs with
  | nil => intro g; exact le_refl 0
  | cons c cs ih =>
    intro g
    rw [pas_cellules_cons]
    have h1 : 0 ≤ (maj_cellule g c.1 c.2).2 := abs_nonneg _
    have h2 := ih (maj_cellule g c.1 c.2).1
    simp only
    linarith

theorem un_pas_de_temps_larg (g : ModeleCTC) : (un_pas_de_temps g).1.larg = g.larg :=
  pas_cellules_larg _ g

theorem un_pas_de_temps_haut (g : ModeleCTC) : (un_pas_de_temps g).1.haut = g.haut :=
  pas_cellules_haut _ g

theorem pasN_larg (n : Nat) : ∀ g : ModeleCTC, (pasN n g).larg = g.larg := by
  induction n with
  | zero => intro g; rfl
  | succ n ih => intro g; rw [pasN, ih, un_pas_de_temps_larg]

theorem pasN_haut (n : Nat) : ∀ g : ModeleCTC, (pasN n g).haut = g.haut := by
  induction n with
  | zero => intro g; rfl
  | succ n ih => intro g; rw [pasN, ih, un_pas_de_temps_haut]

/-! Analysis of one cell update. -/

theorem maj_cellule_eq (g : ModeleCTC) (i j : Nat) :
    maj_cellule g i j =
      (⟨g.larg, g.haut,
        g.cells.set (i * g.larg + j)
          ⟨(lire g i j).chaleur, (lire g i j).temperature + delta_temp g i j,
           (lire g i j).conduction⟩⟩,
       |delta_temp g i j|) := rfl

theorem lire_of_lt (g : ModeleCTC) (i j : Nat) (h : i * g.larg + j < g.cells.length) :
    lire g i j = g.cells.get ⟨i * g.larg + j, h⟩ := by
  simp [lire, List.getD, List.getElem?_eq_getElem h, List.get_eq_getElem]

theorem lire_of_ge (g : ModeleCTC) (i j : Nat) (h : g.cells.length ≤ i * g.larg + j) :
    lire g i j = default := by
  simp [lire, List.getD, List.getElem?_eq_none h]

theorem lire_mem (g : ModeleCTC) (i j : Nat) (h : i * g.larg + j < g.cells.length) :
    lire g i j ∈ g.cells := by
  rw [lire_of_lt g i j h]
  exact List.get_mem g.cells (i * g.larg + j) h

/-- The |delta_temp| returned for a visited cell is exactly the absolute change of
that cell's temperature. -/
theorem maj_cellule_abs (g : ModeleCTC) (i j : Nat) :
    |(lire (maj_cellule g i j).1 i j).temperature - (lire g i j).temperature| =
      (maj_cellule g i j).2 := by
  rw [maj_cellule_eq]
  by_cases h : i * g.larg + j < g.cells.length
  · have hset : ((g.cells.set (i * g.larg + j)
        ⟨(lire g i j).chaleur, (lire g i j).temperature + delta_temp g i j,
         (lire g i j).conduction⟩).getD (i * g.larg + j) default) =
        ⟨(lire g i j).chaleur, (lire g i j).temperature + delta_temp g i j,
         (lire g i j).conduction⟩ := by
      simp [List.getD, List.getElem?_set_self, h]
    show |((g.cells.set _ _).getD (i * g.larg + j) default).temperature - _| = _
    rw [hset]
    simp
  · rw [List.set_eq_of_length_le (by omega)]
    show |(lire g i j).temperature - (lire g i j).temperature| = |delta_temp g i j|
    have hd : delta_temp g i j = 0 := by
      unfold delta_temp
      rw [lire_of_ge g i j (by omega)]
      show (0 : ℚ) * _ = 0
      exact zero_mul _
    rw [hd, sub_self]

theorem pas_cellules_changements (cs : List (Nat × Nat)) :
    ∀ g : ModeleCTC, (pas_cellules g cs).2 = (changements g cs).sum := by
  induction cs with
  | nil => intro g; simp [pas_cellules, changements]
  | cons c cs ih =>
    intro g
    rw [pas_cellules_cons]
    show (maj_cellule g c.1 c.2).2 + (pas_cellules (maj_cellule g c.1 c.2).1 cs).2 =
      (changements g (c :: cs)).sum
    rw [ih]
    show _ = (|(lire (maj_cellule g c.1 c.2).1 c.1 c.2).temperature -
      (lire g c.1 c.2).temperature| :: changements (maj_cellule g c.1 c.2).1 cs).sum
    rw [List.sum_cons, maj_cellule_abs]

/-! Preservation of the floor invariant (temperature ≥ chaleur). -/

theorem maj_cellule_invariant (g : ModeleCTC) (i j : Nat)
    (hcond : ∀ c ∈ g.cells, 0 ≤ c.conduction ∧ c.conduction ≤ 1)
    (hinit : ∀ c ∈ g.cells, c.chaleur ≤ c.temperature) :
    (∀ c ∈ (maj_cellule g i j).1.cells, 0 ≤ c.conduction ∧ c.conduction ≤ 1) ∧
    (∀ c ∈ (maj_cellule g i j).1.cells, c.chaleur ≤ c.temperature) := by
  have hc0 : (0 ≤ (lire g i j).conduction ∧ (lire g i j).conduction ≤ 1) ∧
      (lire g i j).chaleur ≤ (lire g i j).temperature := by
    by_cases h : i * g.larg + j < g.cells.length
    · exact ⟨hcond _ (lire_mem g i j h), hinit _ (lire_mem g i j h)⟩
    · rw [lire_of_ge g i j (by omega)]
      refine ⟨⟨le_refl 0, ?_⟩, le_refl 0⟩
      show (0 : ℚ) ≤ 1
      norm_num
  have hkey : (lire g i j).chaleur ≤ (lire g i j).temperature + delta_temp g i j := by
    set κ := (lire g i j).conduction with hκ
    set t := (lire g i j).temperature with ht
    set h0 := (lire g i j).chaleur with hh
    set M := max (lire g i j).chaleur
      (((lire g (i - 1) j).temperature + (lire g i (j - 1)).temperature +
        (lire g i (j + 1)).temperature + (lire g (i + 1) j).temperature) / 4 + BRUIT) with hM
    have hMh : h0 ≤ M := le_max_left _ _
    have e1 : 0 ≤ (1 - κ) * (t - h0) :=
      mul_nonneg (by linarith [hc0.1.2]) (by linarith [hc0.2])
    have e2 : 0 ≤ κ * (M - h0) := mul_nonneg hc0.1.1 (by linarith)
    show h0 ≤ t + κ * (M - t)
    nlinarith [e1, e2]
  rw [maj_cellule_eq]
  constructor
  · intro c hc
    rcases List.mem_or_eq_of_mem_set hc with hc | hc
    · exact hcond c hc
    · rw [hc]
      exact hc0.1
  · intro c hc
    rcases List.mem_or_eq_of_mem_set hc with hc | hc
    · exact hinit c hc
    · rw [hc]
      exact hkey

theorem pas_cellules_invariant (cs : List (Nat × Nat)) :
    ∀ g : ModeleCTC,
      (∀ c ∈ g.cells, 0 ≤ c.conduction ∧ c.conduction ≤ 1) →
      (∀ c ∈ g.cells, c.chaleur ≤ c.temperature) →
      (∀ c ∈ (pas_cellules g cs).1.cells, 0 ≤ c.conduction ∧ c.conduction ≤ 1) ∧
      (∀ c ∈ (pas_cellules g cs).1.cells, c.chaleur ≤ c.temperature) := by
  induction cs with
  | nil => intro g hcond hinit; exact ⟨hcond, hinit⟩
  | cons c cs ih =>
    intro g hcond hinit
    rw [pas_cellules_cons]
    obtain ⟨h1, h2⟩ := maj_cellule_invariant g c.1 c.2 hcond hinit
    exact ih (maj_cellule g c.1 c.2).1 h1 h2

theorem un_pas_de_temps_invariant (g : ModeleCTC)
    (hcond : ∀ c ∈ g.cells, 0 ≤ c.conduction ∧ c.conduction ≤ 1)
    (hinit : ∀ c ∈ g.cells, c.chaleur ≤ c.temperature) :
    (∀ c ∈ (un_pas_de_temps g).1.cells, 0 ≤ c.conduction ∧ c.conduction ≤ 1) ∧
    (∀ c ∈ (un_pas_de_temps g).1.cells, c.chaleur ≤ c.temperature) :=
  pas_cellules_invariant (liste_balayage g.larg g.haut) g hcond hinit

/-! Frame property: the sweep never writes outside the visited flat indices. -/

/-- Row-major flat indices are injective when both columns are within the width. -/
theorem flat_inj {L i j r c : Nat} (hj : j < L) (hc : c < L)
    (h : i * L + j = r * L + c) : i = r ∧ j = c := by
  have hL : 0 < L := by omega
  have di : (i * L + j) / L = i := by
    rw [Nat.add_comm, Nat.mul_comm, Nat.add_mul_div_left _ _ hL, Nat.div_eq_of_lt hj,
      Nat.zero_add]
  have dr : (r * L + c) / L = r := by
    rw [Nat.add_comm, Nat.mul_comm, Nat.add_mul_div_left _ _ hL, Nat.div_eq_of_lt hc,
      Nat.zero_add]
  rw [h] at di
  rw [dr] at di
  refine ⟨di.symm, ?_⟩
  rw [di.symm] at h
  omega

theorem pas_cellules_frame (cs : List (Nat × Nat)) :
    ∀ (g : ModeleCTC) (k : Nat),
      (∀ c ∈ cs, c.1 * g.larg + c.2 ≠ k) →
      (pas_cellules g cs).1.cells.getD k default = g.cells.getD k default := by
  induction cs with
  | nil => intro g k _; rfl
  | cons c cs ih =>
    intro g k hk
    rw [pas_cellules_cons]
    have h1 : (pas_cellules (maj_cellule g c.1 c.2).1 cs).1.cells.getD k default =
        (maj_cellule g c.1 c.2).1.cells.getD k default := by
      refine ih (maj_cellule g c.1 c.2).1 k fun c' hc' => ?_
      rw [maj_cellule_larg]
      exact hk c' (List.mem_cons_of_mem c hc')
    rw [h1]
    exact maj_cellule_frame g c.1 c.2 k (Ne.symm (hk c (List.mem_cons_self c cs)))

/-- One relaxation step never changes a cell outside the interior. -/
theorem un_pas_de_temps_frame (g : ModeleCTC) (r c : Nat) (hc : c < g.larg)
    (hbord : r = 0 ∨ r = g.haut - 1 ∨ c = 0 ∨ c = g.larg - 1) :
    lire (un_pas_de_temps g).1 r c = lire g r c := by
  show (un_pas_de_temps g).1.cells.getD (r * (un_pas_de_temps g).1.larg + c) default =
    g.cells.getD (r * g.larg + c) default
  rw [un_pas_de_temps_larg]
  refine pas_cellules_frame _ g (r * g.larg + c) ?_
  rintro ⟨i, j⟩ hmem heq
  obtain ⟨h1, h2, h3, h4⟩ := mem_liste_balayage.1 hmem
  obtain ⟨hi, hj⟩ := flat_inj (by omega) hc heq
  omega

/-! Behaviour of the main loop. -/

theorem boucle_succ (g : ModeleCTC) (d : ℚ) (n fuel : Nat) :
    boucle g d n (fuel + 1) =
      if SEUIL_CONVERGENCE < d ∧ n < NB_MAX_ITER then
        boucle (un_pas_de_temps g).1 (un_pas_de_temps g).2 (n + 1) fuel
      else (g, d, n) := rfl

theorem boucle_iter_ge :
    ∀ (fuel : Nat) (g : ModeleCTC) (d : ℚ) (n : Nat), n ≤ (boucle g d n fuel).2.2 := by
  intro fuel
  induction fuel with
  | zero => intro g d n; exact le_refl n
  | succ fuel ih =>
    intro g d n
    simp only [boucle]
    by_cases hc : SEUIL_CONVERGENCE < d ∧ n < NB_MAX_ITER
    · rw [if_pos hc]
      exact le_trans (Nat.le_succ n) (ih _ _ _)
    · rw [if_neg hc]

theorem boucle_iter_le :
    ∀ (fuel : Nat) (g : ModeleCTC) (d : ℚ) (n : Nat),
      n ≤ NB_MAX_ITER → (boucle g d n fuel).2.2 ≤ NB_MAX_ITER := by
  intro fuel
  induction fuel with
  | zero => intro g d n h; exact h
  | succ fuel ih =>
    intro g d n h
    simp only [boucle]
    by_cases hc : SEUIL_CONVERGENCE < d ∧ n < NB_MAX_ITER
    · rw [if_pos hc]
      exact ih _ _ _ (by omega)
    · rw [if_neg hc]
      exact h

theorem boucle_sortie :
    ∀ (fuel : Nat) (g : ModeleCTC) (d : ℚ) (n : Nat), NB_MAX_ITER ≤ n + fuel →
      (boucle g d n fuel).2.2 < NB_MAX_ITER → (boucle g d n fuel).2.1 ≤ SEUIL_CONVERGENCE := by
  intro fuel
  induction fuel with
  | zero =>
    intro g d n hfuel hlt
    have h1 : n < NB_MAX_ITER := hlt
    exact absurd h1 (by omega)
  | succ fuel ih =>
    intro g d n hfuel
    simp only [boucle]
    by_cases hc : SEUIL_CONVERGENCE < d ∧ n < NB_MAX_ITER
    · rw [if_pos hc]
      exact ih _ _ _ (by omega)
    · rw [if_neg hc]
      intro hlt
      rcases not_and_or.1 hc with hc1 | hc2
      · exact le_of_not_lt hc1
      · have h1 : n < NB_MAX_ITER := hlt
        exact absurd h1 hc2

theorem pasN_succ (n : Nat) :
    ∀ g : ModeleCTC, pasN (n + 1) g = (un_pas_de_temps (pasN n g)).1 := by
  induction n with
  | zero => intro g; rfl
  | succ n ih =>
    intro g
    show pasN (n + 1) (un_pas_de_temps g).1 = (un_pas_de_temps (pasN (n + 1) g)).1
    rw [ih (un_pas_de_temps g).1]
    rfl

/-- State invariant of the main loop: started on the n-th iterate of g0 with the
metric of the n-th step and counter n, the loop reports a counter ≥ 1, the metric
returned by the last step it (or its history) performed, and the grid after exactly
that many steps. -/
theorem boucle_derniere :
    ∀ (fuel : Nat) (g0 : ModeleCTC) (n : Nat), 1 ≤ n →
      1 ≤ (boucle (pasN n g0) (un_pas_de_temps (pasN (n - 1) g0)).2 n fuel).2.2 ∧
      (boucle (pasN n g0) (un_pas_de_temps (pasN (n - 1) g0)).2 n fuel).2.1 =
        (un_pas_de_temps (pasN
          ((boucle (pasN n g0) (un_pas_de_temps (pasN (n - 1) g0)).2 n fuel).2.2 - 1) g0)).2 ∧
      (boucle (pasN n g0) (un_pas_de_temps (pasN (n - 1) g0)).2 n fuel).1 =
        pasN ((boucle (pasN n g0) (un_pas_de_temps (pasN (n - 1) g0)).2 n fuel).2.2) g0 := by
  intro fuel
  induction fuel with
  | zero =>
    intro g0 n hn
    exact ⟨hn, rfl, rfl⟩
  | succ fuel ih =>
    intro g0 n hn
    rw [boucle_succ]
    by_cases hc : SEUIL_CONVERGENCE < (un_pas_de_temps (pasN (n - 1) g0)).2 ∧ n < NB_MAX_ITER
    · rw [if_pos hc]
      rw [← pasN_succ n g0]
      have h2 : n + 1 - 1 = n := by omega
      have hih := ih g0 (n + 1) (by omega)
      rw [h2] at hih
      exact hih
    · rw [if_neg hc]
      exact ⟨hn, rfl, rfl⟩

/-! The MPI row partition. -/

/-- Existence and uniqueness of the rank owning a given interior offset. -/
theorem partition_existe_unique {m n k : Nat} (hn : 1 ≤ n) (hk : k < m) :
    ∃! r, r < n ∧ r * m / n ≤ k ∧ k < (r + 1) * m / n := by
  have hP0 : 0 * m / n ≤ k := by simp
  set r := Nat.findGreatest (fun r' => r' * m / n ≤ k) (n - 1) with hr
  have hPr : r * m / n ≤ k :=
    Nat.findGreatest_spec (P := fun r' => r' * m / n ≤ k) (Nat.zero_le (n - 1)) hP0
  have hrn : r < n := lt_of_le_of_lt (Nat.findGreatest_le (n - 1)) (by omega)
  have hub : k < (r + 1) * m / n := by
    by_cases hcase : r + 1 ≤ n - 1
    · have hng := Nat.findGreatest_is_greatest (n := n - 1)
        (P := fun r' => r' * m / n ≤ k) (Nat.lt_succ_self r) hcase
      have hng' : ¬ ((r + 1) * m / n ≤ k) := hng
      omega
    · have hr1 : r + 1 = n := by omega
      rw [hr1, Nat.mul_div_cancel_left m (by omega : 0 < n)]
      exact hk
  refine ⟨r, ⟨hrn, hPr, hub⟩, ?_⟩
  rintro r' ⟨h1, h2, h3⟩
  by_contra hne
  rcases Nat.lt_or_ge r' r with hlt | hge
  · have : (r' + 1) * m / n ≤ r * m / n :=
      Nat.div_le_div_right (Nat.mul_le_mul_right (k := m) (by omega))
    omega
  · have hgt : r < r' := by omega
    have : (r + 1) * m / n ≤ r' * m / n :=
      Nat.div_le_div_right (Nat.mul_le_mul_right (k := m) (by omega))
    omega

/-! Claim C1. -/

/-- C1 counterexample: a 3x3 grid whose conductions all lie in [0, 1] (the center
cell has conduction 0, chaleur 1, temperature 0); after one call of un_pas_de_temps
the center cell still has temperature 0 < chaleur 1, so temperature ≥ chaleur fails
without a precondition on the initial temperatures. -/
theorem c1_contre_exemple :
    (∀ c ∈ grilleC1.cells, 0 ≤ c.conduction ∧ c.conduction ≤ 1) ∧
    ¬ (∀ c ∈ (pasN 1 grilleC1).cells, c.chaleur ≤ c.temperature) := by decide

/-- C1 (amended): if every conduction lies in [0, 1] and every cell starts with
temperature ≥ chaleur, then after every number of calls of un_pas_de_temps every
cell still satisfies temperature ≥ chaleur. -/
theorem c1_plancher (g : ModeleCTC) (n : Nat)
    (hcond : ∀ c ∈ g.cells, 0 ≤ c.conduction ∧ c.conduction ≤ 1)
    (hinit : ∀ c ∈ g.cells, c.chaleur ≤ c.temperature) :
    ∀ c ∈ (pasN n g).cells, c.chaleur ≤ c.temperature := by
  induction n generalizing g with
  | zero => exact hinit
  | succ n ih =>
    simp only [pasN]
    obtain ⟨h1, h2⟩ := un_pas_de_temps_invariant g hcond hinit
    exact ih _ h1 h2

/-- C1 witness: the floor invariant instantiated on a concrete grid and 2 steps. -/
theorem c1_plancher_temoin :
    ((∀ c ∈ grilleC1t.cells, 0 ≤ c.conduction ∧ c.conduction ≤ 1) ∧
      (∀ c ∈ grilleC1t.cells, c.chaleur ≤ c.temperature)) ∧
    ∀ c ∈ (pasN 2 grilleC1t).cells, c.chaleur ≤ c.temperature :=
  ⟨⟨by decide, by decide⟩, c1_plancher grilleC1t 2 (by decide) (by decide)⟩

/-! Claim C2. -/

/-- C2 counterexample: on the 5x5 scenario grid, one call of un_pas_de_temps leaves
the direct neighbor (1, 2) of the center at 7/160 = 0.04375, nowhere near 25.025:
the center cell itself is swept in sub-pass 0 (its checkerboard color) and collapses
to BRUIT before its neighbors read it in sub-pass 1. -/
theorem c2_contre_exemple :
    (lire (pasN 1 grilleC2) 1 2).temperature = 7 / 160 ∧
    ¬ (24 ≤ (lire (pasN 1 grilleC2) 1 2).temperature ∧
        (lire (pasN 1 grilleC2) 1 2).temperature ≤ 26) := by decide

/-- C2 (amended): on the 5x5 scenario grid, one call of un_pas_de_temps leaves the
center cell at BRUIT (it is swept first, in sub-pass 0), each of its 4 direct
neighbors at (3 * BRUIT) / 4 + BRUIT = 0.04375, and the far corner cells at 0. -/
theorem c2_scenario :
    (lire (pasN 1 grilleC2) 2 2).temperature = BRUIT ∧
    (lire (pasN 1 grilleC2) 1 2).temperature = 3 * BRUIT / 4 + BRUIT ∧
    (lire (pasN 1 grilleC2) 2 1).temperature = 3 * BRUIT / 4 + BRUIT ∧
    (lire (pasN 1 grilleC2) 2 3).temperature = 3 * BRUIT / 4 + BRUIT ∧
    (lire (pasN 1 grilleC2) 3 2).temperature = 3 * BRUIT / 4 + BRUIT ∧
    (lire (pasN 1 grilleC2) 0 0).temperature = 0 ∧
    (lire (pasN 1 grilleC2) 0 4).temperature = 0 ∧
    (lire (pasN 1 grilleC2) 4 0).temperature = 0 ∧
    (lire (pasN 1 grilleC2) 4 4).temperature = 0 := by decide

/-! Claim C3. -/

/-- C3 counterexample: in the MPI variant run with a single process, the halo
exchange wraps around the ring and overwrites the border rows: the border cell
(0, 0) starts at temperature 5 and holds 0 after one step, so border temperatures
are not bit-identical in the distributed variant. -/
theorem c3_contre_exemple :
    (lire grilleC3 0 0).temperature = 5 ∧
    (lire (un_pas_de_temps_mpi1 grilleC3).1 0 0).temperature = 0 := by decide

/-- C3 (amended): in the single-worker variant the relaxation sweep never writes a
border cell, so after any number of steps every border cell is identical to its
initial value.  (In the MPI variant the halo exchange does overwrite the border
rows 0 and haut-1 through the ring wrap-around.) -/
theorem c3_bord_sequentiel (g : ModeleCTC) (n r c : Nat) (hc : c < g.larg)
    (hbord : r = 0 ∨ r = g.haut - 1 ∨ c = 0 ∨ c = g.larg - 1) :
    lire (pasN n g) r c = lire g r c := by
  induction n generalizing g with
  | zero => rfl
  | succ n ih =>
    simp only [pasN]
    have hc' : c < (un_pas_de_temps g).1.larg := by
      rw [un_pas_de_temps_larg]; exact hc
    have hbord' : r = 0 ∨ r = (un_pas_de_temps g).1.haut - 1 ∨ c = 0 ∨
        c = (un_pas_de_temps g).1.larg - 1 := by
      rw [un_pas_de_temps_larg, un_pas_de_temps_haut]; exact hbord
    rw [ih (un_pas_de_temps g).1 hc' hbord']
    exact un_pas_de_temps_frame g r c hc hbord

/-- C3 witness: border invariance of the sequential variant on a concrete grid. -/
theorem c3_bord_sequentiel_temoin :
    (2 < grilleC3.larg ∧ (0 : Nat) = 0) ∧
    lire (pasN 5 grilleC3) 0 2 = lire grilleC3 0 2 :=
  ⟨⟨by decide, rfl⟩, c3_bord_sequentiel grilleC3 5 0 2 (by decide) (Or.inl rfl)⟩

/-! Claim C4. -/

/-- C4 counterexample: on a 3x3 grid with conduction 1 everywhere exactly one cell
is swept, whose absolute change is 1/40; the mean over the swept cells would be
1/40, but un_pas_de_temps returns (1/40) / 9 = 1/360, dividing by larg * haut. -/
theorem c4_contre_exemple :
    (un_pas_de_temps grilleC4).2 = 1 / 360 ∧
    (changements grilleC4 (liste_balayage 3 3)).sum = 1 / 40 ∧
    liste_balayage 3 3 = [(1, 1)] ∧ ((1 : ℚ) / 360) ≠ 1 / 40 := by decide

/-- C4 (amended): un_pas_de_temps returns the sum over the swept cells of the
absolute per-cell temperature change, divided by larg * haut — the total number of
grid cells, not the number of swept cells. -/
theorem c4_metrique (g : ModeleCTC) :
    (un_pas_de_temps g).2 =
      (changements g (liste_balayage g.larg g.haut)).sum / ((g.larg * g.haut : Nat) : ℚ) := by
  show (pas_cellules g (liste_balayage g.larg g.haut)).2 / _ = _
  rw [pas_cellules_changements]

/-! Claim C5. -/

/-- C5 counterexample: on a 3x3 grid with pairwise distinct temperatures, the
out-of-range access (rangee, colonne) = (0, 4) succeeds and returns the storage of
cell (1, 1) (flat index 4): vector::at silently aliases across rows instead of
failing. -/
theorem c5_contre_exemple :
    grilleC5.temperature 0 4 = some 4 ∧ grilleC5.temperature 1 1 = some 4 ∧
    (grilleC5.ctc 0 4).isSome = true := by decide

/-- C5 (amended): the accessors check only the flat index rangee * larg + colonne
against the buffer size: ctc succeeds exactly when rangee * larg + colonne <
larg * haut cells, and the component accessors read through the same flat index, so
a (rangee, colonne) with colonne ≥ larg whose flat index is in range silently
resolves to another cell's storage. -/
theorem c5_acces (g : ModeleCTC) (rangee colonne : Nat) :
    ((g.ctc rangee colonne).isSome ↔ rangee * g.larg + colonne < g.cells.length) ∧
    g.chaleur rangee colonne = (g.ctc rangee colonne).map CTC.chaleur ∧
    g.temperature rangee colonne = (g.ctc rangee colonne).map CTC.temperature ∧
    g.conduction rangee colonne = (g.ctc rangee colonne).map CTC.conduction := by
  refine ⟨?_, rfl, rfl, rfl⟩
  unfold ModeleCTC.ctc
  constructor
  · intro h
    by_contra hge
    rw [List.getElem?_eq_none (by omega)] at h
    simp at h
  · intro h
    rw [List.getElem?_eq_getElem h]
    rfl

/-! Claim C6. -/

/-- C6 counterexample: on this grid the first step returns exactly
SEUIL_CONVERGENCE; the loop stops before the cap (after 1 iteration) although the
metric is not strictly below the threshold — the guard is delta > SEUIL, so the
loop stops on metric ≤ SEUIL, not < SEUIL. -/
theorem c6_contre_exemple :
    (principale grilleC6).2.2 = 1 ∧ (principale grilleC6).2.2 < NB_MAX_ITER ∧
    (principale grilleC6).2.1 = SEUIL_CONVERGENCE ∧
    ¬ ((principale grilleC6).2.1 < SEUIL_CONVERGENCE) := by decide

/-- C6 (amended): the main loop performs at most NB_MAX_ITER steps; the metric
returned by a step is always ≥ 0; and when the loop stops before the cap the last
metric is ≤ SEUIL_CONVERGENCE (non-strict: a metric exactly at the threshold also
stops it). -/
theorem c6_controleur (g : ModeleCTC) :
    (principale g).2.2 ≤ NB_MAX_ITER ∧
    0 ≤ (un_pas_de_temps g).2 ∧
    ((principale g).2.2 < NB_MAX_ITER → (principale g).2.1 ≤ SEUIL_CONVERGENCE) := by
  refine ⟨boucle_iter_le NB_MAX_ITER g _ 0 (by omega), ?_, ?_⟩
  · show 0 ≤ (pas_cellules g (liste_balayage g.larg g.haut)).2 / ((g.larg * g.haut : Nat) : ℚ)
    exact div_nonneg (pas_cellules_nonneg _ g) (by positivity)
  · exact boucle_sortie NB_MAX_ITER g _ 0 (by omega)

/-- C6 witness: the controller bounds instantiated on a concrete grid that stops
before the cap. -/
theorem c6_controleur_temoin :
    ((principale grilleC6).2.2 ≤ NB_MAX_ITER ∧ 0 ≤ (un_pas_de_temps grilleC6).2 ∧
      ((principale grilleC6).2.2 < NB_MAX_ITER →
        (principale grilleC6).2.1 ≤ SEUIL_CONVERGENCE)) ∧
    (principale grilleC6).2.2 < NB_MAX_ITER :=
  ⟨c6_controleur grilleC6, by decide⟩

/-! Claim C7. -/

/-- C7: for every grid height ≥ 3 and worker count ≥ 1, the partition of the MPI
variant starts at row 1, ends at row haut - 1, is contiguous (each rank's end is
the next rank's start), and every interior row belongs to exactly one rank. -/
theorem c7_partition (haut size i : Nat) (hh : 3 ≤ haut) (hs : 1 ≤ size) :
    debut haut 0 size = 1 ∧
    fin haut (size - 1) size = haut - 1 ∧
    (∀ r, fin haut r size = debut haut (r + 1) size) ∧
    (1 ≤ i → i < haut - 1 →
      ∃! r, r < size ∧ debut haut r size ≤ i ∧ i < fin haut r size) := by
  refine ⟨by simp [debut], ?_, fun r => rfl, ?_⟩
  · unfold fin
    have h1 : size - 1 + 1 = size := by omega
    rw [h1, Nat.mul_div_cancel_left _ (by omega : 0 < size)]
    omega
  · intro h1 h2
    obtain ⟨r, ⟨hr1, hr2, hr3⟩, hu⟩ :=
      partition_existe_unique (m := haut - 2) (k := i - 1) hs (by omega)
    refine ⟨r, ⟨hr1, ?_, ?_⟩, ?_⟩
    · unfold debut; omega
    · unfold fin; omega
    · rintro r' ⟨h1', h2', h3'⟩
      refine hu r' ⟨h1', ?_, ?_⟩
      · unfold debut at h2'; omega
      · unfold fin at h3'; omega

/-- C7 witness: the partition properties instantiated at haut = 7, size = 3, i = 4. -/
theorem c7_partition_temoin :
    (3 ≤ 7 ∧ 1 ≤ 3) ∧
    (debut 7 0 3 = 1 ∧
      fin 7 (3 - 1) 3 = 7 - 1 ∧
      (∀ r, fin 7 r 3 = debut 7 (r + 1) 3) ∧
      (1 ≤ 4 → 4 < 7 - 1 → ∃! r, r < 3 ∧ debut 7 r 3 ≤ 4 ∧ 4 < fin 7 r 3)) :=
  ⟨⟨by decide, by decide⟩, c7_partition 7 3 4 (by decide) (by decide)⟩

/-! Claim C8. -/

/-- C8: sub-pass impair (0 then 1) visits exactly the interior cells whose
checkerboard color satisfies (i + j) % 2 = impair; the two sub-passes together
visit every interior cell exactly once (the visit list has no duplicate and covers
exactly the interior); and un_pas_de_temps applies sub-pass 1 to the grid produced
in place by sub-pass 0, so sub-pass 0's writes are observed by sub-pass 1. -/
theorem c8_damier (g : ModeleCTC) (larg haut impair i j : Nat) (himp : impair ≤ 1) :
    ((i, j) ∈ visite larg (List.range' 1 (haut - 2)) impair ↔
      1 ≤ i ∧ i < haut - 1 ∧ 1 ≤ j ∧ j < larg - 1 ∧ (i + j) % 2 = impair) ∧
    ((i, j) ∈ liste_balayage larg haut ↔
      1 ≤ i ∧ i < haut - 1 ∧ 1 ≤ j ∧ j < larg - 1) ∧
    (liste_balayage larg haut).Nodup ∧
    un_pas_de_temps g =
      ((pas_cellules (pas_cellules g (visite g.larg (List.range' 1 (g.haut - 2)) 0)).1
          (visite g.larg (List.range' 1 (g.haut - 2)) 1)).1,
        ((pas_cellules g (visite g.larg (List.range' 1 (g.haut - 2)) 0)).2 +
          (pas_cellules (pas_cellules g (visite g.larg (List.range' 1 (g.haut - 2)) 0)).1
            (visite g.larg (List.range' 1 (g.haut - 2)) 1)).2) /
          ((g.larg * g.haut : Nat) : ℚ)) := by
  refine ⟨mem_visite himp, mem_liste_balayage, nodup_liste_balayage larg haut, ?_⟩
  show ((pas_cellules g (liste_balayage g.larg g.haut)).1,
    (pas_cellules g (liste_balayage g.larg g.haut)).2 / ((g.larg * g.haut : Nat) : ℚ)) = _
  rw [liste_balayage, pas_cellules_append]

/-- C8 witness: the checkerboard properties instantiated on the 5x5 scenario grid,
sub-pass 1, cell (2, 3). -/
theorem c8_damier_temoin :
    (1 : Nat) ≤ 1 ∧
    (((2, 3) ∈ visite 5 (List.range' 1 (5 - 2)) 1 ↔
        1 ≤ 2 ∧ 2 < 5 - 1 ∧ 1 ≤ 3 ∧ 3 < 5 - 1 ∧ (2 + 3) % 2 = 1) ∧
      ((2, 3) ∈ liste_balayage 5 5 ↔ 1 ≤ 2 ∧ 2 < 5 - 1 ∧ 1 ≤ 3 ∧ 3 < 5 - 1) ∧
      (liste_balayage 5 5).Nodup ∧
      un_pas_de_temps grilleC2 =
        ((pas_cellules
            (pas_cellules grilleC2 (visite grilleC2.larg (List.range' 1 (grilleC2.haut - 2)) 0)).1
            (visite grilleC2.larg (List.range' 1 (grilleC2.haut - 2)) 1)).1,
          ((pas_cellules grilleC2 (visite grilleC2.larg (List.range' 1 (grilleC2.haut - 2)) 0)).2 +
            (pas_cellules
              (pas_cellules grilleC2
                (visite grilleC2.larg (List.range' 1 (grilleC2.haut - 2)) 0)).1
              (visite grilleC2.larg (List.range' 1 (grilleC2.haut - 2)) 1)).2) /
            ((grilleC2.larg * grilleC2.haut : Nat) : ℚ))) :=
  ⟨by decide, c8_damier grilleC2 5 5 1 2 3 (by decide)⟩

/-! Claim C9. -/

/-- C9 counterexample: redimensionner(2, 2) succeeds with no dimension check: the
2x2 grid (width 2 < 3) is created, with 4 cells. -/
theorem c9_contre_exemple :
    (redimensionner ⟨0, 0, []⟩ 2 2).larg = 2 ∧
    (redimensionner ⟨0, 0, []⟩ 2 2).haut = 2 ∧
    (redimensionner ⟨0, 0, []⟩ 2 2).cells.length = 4 ∧ (2 : Nat) < 3 := by decide

/-- C9 (amended): redimensionner performs no dimension check at all: for every
largeur and hauteur (including values below 3) it stores the dimensions and resizes
the buffer to exactly largeur * hauteur cells. -/
theorem c9_redimensionner (g : ModeleCTC) (largeur hauteur : Nat) :
    (redimensionner g largeur hauteur).larg = largeur ∧
    (redimensionner g largeur hauteur).haut = hauteur ∧
    (redimensionner g largeur hauteur).cells.length = largeur * hauteur := by
  refine ⟨rfl, rfl, ?_⟩
  show (resize g.cells (largeur * hauteur)).length = largeur * hauteur
  unfold resize
  rw [List.length_append, List.length_take, List.length_replicate]
  omega

/-! Claim C10. -/

/-- C10: the main loop always performs at least one relaxation step before any
convergence test, because delta_temp is initialized to SEUIL_CONVERGENCE + 1 >
SEUIL_CONVERGENCE: the reported nb_iter is ≥ 1, the reported metric is exactly the
value returned by the last un_pas_de_temps call of this run (the step applied to
the grid after nb_iter - 1 steps from the initial grid), and the final grid is the
nb_iter-th iterate of the initial grid. -/
theorem c10_premier_pas (g : ModeleCTC) :
    1 ≤ (principale g).2.2 ∧
    (principale g).2.1 = (un_pas_de_temps (pasN ((principale g).2.2 - 1) g)).2 ∧
    (principale g).1 = pasN ((principale g).2.2) g := by
  have hguard : SEUIL_CONVERGENCE < SEUIL_CONVERGENCE + 1 ∧ 0 < NB_MAX_ITER :=
    ⟨by linarith, by decide⟩
  have hN : NB_MAX_ITER = 4999 + 1 := rfl
  have h1 : principale g =
      boucle (pasN 1 g) (un_pas_de_temps (pasN (1 - 1) g)).2 1 4999 := by
    show boucle g (SEUIL_CONVERGENCE + 1) 0 NB_MAX_ITER = _
    rw [hN, boucle_succ, if_pos hguard]
    rfl
  rw [h1]
  exact boucle_derniere 4999 g 1 (le_refl 1)

end Chaleur
